import Mathlib

/-!
# Verification of the journal web application (router, slugify, controllers)

Shallow embedding of `src/main.go` (router `mux.ServeHTTP`, `slugify`,
`NewController.Run`) and of the Edit controller state machine (whose
implementation is absent from `src/`; only its test `TestEdit_Run` is
present, so it is modelled from the spec).

The Go `regexp` calls (`MatchString`, `MustCompile`, `FindAllString`,
`ReplaceAllString`) are embedded by a small executable regex engine for the
fragment of RE2 syntax the program uses: single-character classes, escapes,
groups, concatenation and the greedy `+` over a character class.  Matching
follows Go's leftmost-first (backtracking-preference) semantics; matches of
this fragment always consume at least one character.
-/

/-- Go `\w` word characters: `[0-9A-Za-z_]` (ASCII, as in Go's regexp). -/
def isWordChar (c : Char) : Bool := c.isAlphanum || c == '_'

/-- Regex abstract syntax for the fragment used by the program's patterns
(`[\W+]` and `\/([\w\-]+)`): a single character from a class, concatenation,
a capturing group, and greedy `+` over a character class. -/
inductive Regex where
  | cls (p : Char → Bool)
  | seq (a b : Regex)
  | group (a : Regex)
  | plusCls (p : Char → Bool)

/-- All lengths of matches of `r` against a prefix of `s`, in backtracking
preference order (greedy `+` prefers the longest run first), mirroring Go's
leftmost-first semantics at a fixed starting position. -/
def matchEnds : Regex → List Char → List Nat
  | .cls _, [] => []
  | .cls p, c :: _ => if p c then [1] else []
  | .seq a b, s =>
      (matchEnds a s).flatMap (fun n => (matchEnds b (s.drop n)).map (fun m => n + m))
  | .group a, s => matchEnds a s
  | .plusCls p, s =>
      (List.range (s.takeWhile p).length).map (fun i => (s.takeWhile p).length - i)

/-- Leftmost match of `r` in `s`: returns `(start, length)` of the first
(leftmost, then preference-first) match, as Go's unanchored search does. -/
def reSearch (r : Regex) : List Char → Option (Nat × Nat)
  | [] => (matchEnds r []).head?.map (fun n => (0, n))
  | c :: t =>
    match (matchEnds r (c :: t)).head? with
    | some n => some (0, n)
    | none => (reSearch r t).map (fun q => (q.1 + 1, q.2))

/-- Embeds Go `regexp.MatchString` for a compiled pattern: unanchored search. -/
def reMatch (r : Regex) (s : String) : Bool := (reSearch r s.data).isSome

/-- Successive leftmost matches, each search resuming just after the end of
the previous match, as Go's `FindAll` does.  The fuel is only a termination
bound: every match of this fragment consumes at least one character, so
`s.length + 1` units of fuel are never exhausted. -/
def reFindAllAux (r : Regex) : Nat → List Char → List (List Char)
  | 0, _ => []
  | fuel + 1, s =>
    match reSearch r s with
    | none => []
    | some (st, n) => ((s.drop st).take n) :: reFindAllAux r fuel (s.drop (st + n))

/-- Embeds Go `re.FindAllString(s, -1)`: all successive matches. -/
def reFindAllString (r : Regex) (s : String) : List String :=
  (reFindAllAux r (s.data.length + 1) s.data).map (fun l => String.mk l)

/-- Successive replacement of every match by `rep`, as Go
`re.ReplaceAllString(s, rep)` does (the replacement text of the program,
`"-"`, has no `$` references, so literal substitution is faithful). -/
def reReplaceAllAux (r : Regex) (rep : List Char) : Nat → List Char → List Char
  | 0, s => s
  | fuel + 1, s =>
    match reSearch r s with
    | none => s
    | some (st, n) => s.take st ++ rep ++ reReplaceAllAux r rep fuel (s.drop (st + n))

/-- Embeds Go `re.ReplaceAllString(s, rep)`. -/
def reReplaceAllString (r : Regex) (s rep : String) : String :=
  String.mk (reReplaceAllAux r rep.data (s.data.length + 1) s.data)

/-- One escaped atom of Go regexp syntax, as a character class:
`\w`, `\W`, `\d`, `\D`, and escaped punctuation as a literal. -/
def escAtom (e : Char) : Option (Char → Bool) :=
  if e == 'w' then some isWordChar
  else if e == 'W' then some (fun c => !(isWordChar c))
  else if e == 'd' then some Char.isDigit
  else if e == 'D' then some (fun c => !(Char.isDigit c))
  else if e.isAlpha then none
  else some (fun c => c == e)

/-- Parses the items of a bracketed character class up to the closing `]`,
accumulating the union of the member classes; items are escapes or literal
characters (ranges and negation are outside the supported fragment). -/
def parseClassAux : Nat → List Char → (Char → Bool) → Option ((Char → Bool) × List Char)
  | 0, _, _ => none
  | _ + 1, [], _ => none
  | _ + 1, ']' :: rest, acc => some (acc, rest)
  | fuel + 1, '\\' :: e :: rest, acc =>
      match escAtom e with
      | some p => parseClassAux fuel rest (fun c => acc c || p c)
      | none => none
  | _ + 1, '\\' :: [], _ => none
  | _ + 1, '-' :: _, _ => none
  | _ + 1, '^' :: _, _ => none
  | fuel + 1, c :: rest, acc => parseClassAux fuel rest (fun d => acc d || d == c)

/-- Appends the next atom to the regex parsed so far. -/
def seqAppend : Option Regex → Regex → Regex
  | none, r => r
  | some a, r => .seq a r

/-- Recursive-descent parser for the supported regexp fragment; parses a
concatenation of atoms, stopping at end of input or an unconsumed `)`.
The fuel only bounds recursion depth; `length + 2` is never exhausted. -/
def parseSeqAux : Nat → List Char → Option Regex → Option (Regex × List Char)
  | 0, _, _ => none
  | _ + 1, [], acc => acc.map (fun r => (r, ([] : List Char)))
  | _ + 1, ')' :: rest, acc => acc.map (fun r => (r, ')' :: rest))
  | fuel + 1, '\\' :: e :: rest, acc =>
      match escAtom e with
      | none => none
      | some p =>
        match rest with
        | '+' :: rest2 => parseSeqAux fuel rest2 (some (seqAppend acc (.plusCls p)))
        | _ => parseSeqAux fuel rest (some (seqAppend acc (.cls p)))
  | _ + 1, '\\' :: [], _ => none
  | fuel + 1, '[' :: rest, acc =>
      match parseClassAux (rest.length + 1) rest (fun _ => false) with
      | none => none
      | some (p, rest2) =>
        match rest2 with
        | '+' :: rest3 => parseSeqAux fuel rest3 (some (seqAppend acc (.plusCls p)))
        | _ => parseSeqAux fuel rest2 (some (seqAppend acc (.cls p)))
  | fuel + 1, '(' :: rest, acc =>
      match parseSeqAux fuel rest none with
      | some (r, ')' :: rest2) =>
        match rest2 with
        | '+' :: _ => none
        | _ => parseSeqAux fuel rest2 (some (seqAppend acc (.group r)))
      | _ => none
  | fuel + 1, c :: rest, acc =>
      if c == '+' || c == '*' || c == '?' || c == '|' || c == ']' || c == '.' ||
         c == '^' || c == '$' || c == Char.ofNat 123 || c == Char.ofNat 125 then none
      else
        match rest with
        | '+' :: rest2 => parseSeqAux fuel rest2 (some (seqAppend acc (.plusCls (fun d => d == c))))
        | _ => parseSeqAux fuel rest (some (seqAppend acc (.cls (fun d => d == c))))

/-- Embeds Go `regexp.Compile` for the supported fragment; `none` plays the
role of a compilation error (`MatchString` then reports no match, as the
program discards the error). -/
def compilePattern (s : String) : Option Regex :=
  match parseSeqAux (s.data.length + 2) s.data none with
  | some (r, []) => some r
  | _ => none

/-- Embeds `regexp.MatchString(pattern, s)` with the error discarded, as at
`main.go:145`: a pattern that fails to compile yields `false`. -/
def reMatchStringS (pattern s : String) : Bool :=
  match compilePattern pattern with
  | some r => reMatch r s
  | none => false

/-- Embeds `regexp.MustCompile(pattern).FindAllString(s, -1)` as called at
`main.go:147-148`; only reached when `reMatchStringS` succeeded, hence when
the pattern compiles. -/
def reFindAllStringS (pattern s : String) : List String :=
  match compilePattern pattern with
  | some r => reFindAllString r s
  | none => []

/-- The compiled pattern of `slugify` (`main.go:33`): `[\W+]`, a character
class matching one character that is a non-word character or `+` (inside a
class, `+` is a literal member, and `+` is itself a non-word character). -/
def slugRe : Regex :=
  (compilePattern "[\\W+]").getD (.cls (fun _ => false))

/-- Embeds `strings.ToLower` for the strings `slugify` produces: after
replacement every character is an ASCII word character or `-`, on which
`Char.toLower` agrees with Go's Unicode lowering. -/
def strToLower (s : String) : String := String.mk (s.data.map Char.toLower)

/-- Embeds `slugify` (`main.go:32-36`):
`strings.ToLower(regexp.MustCompile("[\\W+]").ReplaceAllString(s, "-"))`. -/
def slugify (s : String) : String :=
  strToLower (reReplaceAllString slugRe s "-")

/-- Boolean substring containment (used to state "body contains ..."). -/
def containsSubL (s sub : List Char) : Bool :=
  s.tails.any (fun t => sub.isPrefixOf t)

/-- Boolean substring containment on strings. -/
def containsSub (s sub : String) : Bool := containsSubL s.data sub.data

/-- Embeds the Journal model struct (`main.go:24-30`). -/
structure Journal where
  id : Nat
  slug : String
  title : String
  date : String
  content : String
deriving DecidableEq

/-- Embeds the route struct (`main.go:118-123`); the bound controller is
identified by a numeric id standing for the registered instance. -/
structure route where
  method : String
  uri : String
  matchable : Bool
  controller : Nat
deriving DecidableEq

/-- Embeds the mux struct (`main.go:125-127`). -/
structure mux where
  routes : List route
deriving DecidableEq

/-- The HTTP status and body written by Go's `http.NotFound` (which the
router calls at `main.go:156`): status 404 and body `"404 page not found\n"`. -/
structure HttpOut where
  status : Nat
  body : String
deriving DecidableEq

/-- Output of Go's `http.NotFound(w, r)`. -/
def goNotFoundOut : HttpOut := { status := 404, body := "404 page not found\n" }

/-- Observable dispatch events of one `ServeHTTP` call: a `SetParams` call
on a controller with the passed parameter list, a `Run` call on a
controller, or the not-found response (log lines are ignored as pure
observability, per the spec). -/
inductive Event where
  | setParams (controller : Nat) (ps : List String)
  | run (controller : Nat)
  | respondNotFound (out : HttpOut)
deriving DecidableEq

/-- Method compatibility, as computed inline at `main.go:138` and
`main.go:146`: exact match, or empty request method against a GET route. -/
def methodOKB (reqMethod routeMethod : String) : Bool :=
  reqMethod == routeMethod || (reqMethod == "" && routeMethod == "GET")

/-- Whether one route matches the request, as the union of the two tests the
loop body of `ServeHTTP` applies to every route: the byte-equality branch
(`main.go:138`) and, for matchable routes, the regex branch (`main.go:144-146`). -/
def routeMatches (m p : String) (rt : route) : Bool :=
  (p == rt.uri && methodOKB m rt.method) ||
  (rt.matchable && reMatchStringS rt.uri p && methodOKB m rt.method)

/-- Embeds the route-scanning loop of `mux.ServeHTTP` (`main.go:137-157`):
first the byte-equality test with method compatibility, then — for matchable
routes — the regex search with method compatibility (extracting all matches
as params), else the next route; after the whole list, `http.NotFound`. -/
def serveRoutes : List route → String → String → List Event
  | [], _, _ => [Event.respondNotFound goNotFoundOut]
  | rt :: rest, m, p =>
    if p == rt.uri && methodOKB m rt.method then
      [Event.run rt.controller]
    else if rt.matchable && reMatchStringS rt.uri p && methodOKB m rt.method then
      [Event.setParams rt.controller (reFindAllStringS rt.uri p), Event.run rt.controller]
    else serveRoutes rest m p

/-- Embeds `mux.ServeHTTP` (`main.go:134-158`). -/
def mux.ServeHTTP (mx : mux) (m p : String) : List Event :=
  serveRoutes mx.routes m p

/-- Replays the `setParams` events of a dispatch over the stored per-controller
parameter state (the `params` field set by `Controller.SetParams`,
`main.go:70-72`), yielding the state the controllers hold afterwards. -/
def applyEvents : List Event → (Nat → List String) → (Nat → List String)
  | [], st => st
  | Event.setParams c ps :: rest, st =>
      applyEvents rest (fun i => if i = c then ps else st i)
  | _ :: rest, st => applyEvents rest st

/-- The route table registered in `main` (`main.go:197-201`); controller ids:
0 = the IndexController instance, 1 = the NewController instance (bound to
both `/new` routes), 2 = the ViewController instance. -/
def appMux : mux :=
  { routes := [
      { method := "GET", uri := "/", matchable := false, controller := 0 },
      { method := "GET", uri := "/new", matchable := false, controller := 1 },
      { method := "POST", uri := "/new", matchable := false, controller := 1 },
      { method := "GET", uri := "\\/([\\w\\-]+)", matchable := true, controller := 2 }] }

/-- Result of the store's `Exec` as the Go code observes it: the returned
`sql.Result` (just its `LastInsertId`, `none` standing for Go's nil result
on failure) and the returned error value. -/
structure ExecOutcome where
  result : Option Nat
  errMsg : Option String

/-- Observable outcome of `NewController.Run`. -/
inductive NewOutcome where
  | renderNewForm
  | panicNilDeref
  | redirect (loc : String) (status : Nat)
deriving DecidableEq

/-- Embeds `NewController.Run` (`main.go:84-106`): on GET, render the form;
on POST, build the entry with `slugify(title)`, call `Exec` with the entry's
fields, ignore the returned error (`res, err := stmt.Exec(...)` with `err`
never inspected), and call `res.LastInsertId()` unconditionally — a nil
result (Exec failure) is a nil dereference; otherwise redirect 302 to `/`. -/
def NewController.Run (method title date content : String)
    (exec : List String → ExecOutcome) : NewOutcome :=
  if method == "GET" then
    NewOutcome.renderNewForm
  else
    let j : Journal := { id := 0, slug := slugify title, title := title,
                         date := date, content := content }
    let res := exec [j.slug, j.title, j.date, j.content]
    match res.result with
    | none => NewOutcome.panicNilDeref
    | some _ => NewOutcome.redirect "/" 302

/-- Modelled from the spec: the error-banner marker the edit form renders
when the `Error` flag is set (spec section 4.3; the Edit controller's
implementation is absent from `src/`, only `TestEdit_Run` is present, and
the test checks for this marker text). -/
def errMarker : String := "div class=\"error\""

/-- Modelled from the spec: the pre-populated field portion of the rendered
edit form — it carries the loaded entry's `title`, `date` and `content`. -/
def renderFields (e : Journal) : String :=
  "<form>" ++ e.title ++ "|" ++ e.date ++ "|" ++ e.content ++ "</form>"

/-- Modelled from the spec: the rendered edit page — the error banner is
present exactly when the `Error` flag is set, followed by the form fields. -/
def renderEdit (e : Journal) (err : Bool) : String :=
  (if err then "<" ++ errMarker ++ ">" else "") ++ renderFields e

/-- The terminal HTTP response of one Edit invocation. -/
structure EditResp where
  status : Nat
  body : String
  location : Option String
deriving DecidableEq

/-- Full observable outcome of one Edit invocation: the response, the row
written by the update statement (`none` when the store is not touched), and
the controller's `Error` flag afterwards. -/
structure EditOut where
  resp : EditResp
  update : Option Journal
  errorFlag : Bool
deriving DecidableEq

/-- Modelled from the spec: the Edit controller's `Run` (spec section 4.3;
the implementation is absent from `src/`, only its test `TestEdit_Run` is
present).  Inputs: the row the store's query-by-slug yields (`none` when the
cursor has no row), the HTTP method, the truthiness of the `error` query
parameter, the submitted form fields, and the controller's prior `Error`
flag.  Transitions: no row → 404 with a "Page Not Found" body, nothing else;
GET → set `Error` from the query and render the form; POST with all three
fields empty → 302 to the entry's edit path with `error=1`, store untouched;
POST otherwise → update `title`, `date`, `content` for the slug (id and slug
unchanged) and 302 to `/?saved=1`. -/
def editRun (row : Option Journal) (method : String) (errParam : Bool)
    (title date content : String) (prevError : Bool) : EditOut :=
  match row with
  | none =>
      { resp := { status := 404, body := "Page Not Found", location := none },
        update := none, errorFlag := prevError }
  | some e =>
    if method == "POST" then
      if title == "" && date == "" && content == "" then
        { resp := { status := 302, body := "",
                    location := some ("/" ++ e.slug ++ "/edit?error=1") },
          update := none, errorFlag := prevError }
      else
        { resp := { status := 302, body := "", location := some "/?saved=1" },
          update := some { id := e.id, slug := e.slug, title := title,
                           date := date, content := content },
          errorFlag := prevError }
    else
      { resp := { status := 200, body := renderEdit e errParam, location := none },
        update := none, errorFlag := errParam }

/-- The row `MockJournalSingleRow` of `TestEdit_Run` scans out (used as the
concrete entry in witnesses). -/
def testRow : Journal :=
  { id := 1, slug := "slug", title := "Title", date := "2018-02-01", content := "Content" }

/-- The matches produced on input `s` appear in `s` from left to right, in
order and without overlap: there is a decomposition of `s` interleaving them. -/
def interleaved : List Char → List (List Char) → Prop
  | _, [] => True
  | s, q :: qs => ∃ pre rest, s = pre ++ q ++ rest ∧ interleaved rest qs

/-- `q` matches the whole pattern `r` (not merely a capture group of it). -/
def reFullMatch (r : Regex) (q : String) : Prop :=
  q.data.length ∈ matchEnds r q.data

/-- The slug computation as the specification words it (for comparison with
`slugify`): "lower-cased, non-word runs collapsed to a single separator" —
each maximal run of non-word characters becomes one `-`.  The flag records
whether the previous character belonged to a non-word run. -/
def slugSpec : List Char → Bool → List Char
  | [], _ => []
  | c :: t, inRun =>
      if isWordChar c then c.toLower :: slugSpec t false
      else if inRun then slugSpec t true
      else '-' :: slugSpec t true

/-- `slugSpec` on strings. -/
def slugSpecS (s : String) : String := String.mk (slugSpec s.data false)

theorem length_takeWhileLe (p : Char → Bool) (s : List Char) :
    (s.takeWhile p).length ≤ s.length := by
  induction s with
  | nil => simp
  | cons c t ih =>
      rw [List.takeWhile_cons]
      split
      · simpa using ih
      · simp

theorem mem_matchEnds_plusCls {p : Char → Bool} {s : List Char} {n : Nat} :
    n ∈ matchEnds (.plusCls p) s ↔ 1 ≤ n ∧ n ≤ (s.takeWhile p).length := by
  simp only [matchEnds, List.mem_map, List.mem_range]
  constructor
  · rintro ⟨i, hi, rfl⟩
    omega
  · rintro ⟨h1, h2⟩
    exact ⟨(s.takeWhile p).length - n, by omega, by omega⟩

theorem matchEnds_pos_le {r : Regex} : ∀ {s : List Char} {n : Nat},
    n ∈ matchEnds r s → 1 ≤ n ∧ n ≤ s.length := by
  induction r with
  | cls p =>
      intro s n h
      match s with
      | [] => simp [matchEnds] at h
      | c :: t =>
          rw [matchEnds] at h
          split at h
          · simp at h
            subst h
            simp
          · simp at h
  | seq a b iha ihb =>
      intro s n h
      simp only [matchEnds, List.mem_flatMap, List.mem_map] at h
      obtain ⟨n1, h1, m, h2, rfl⟩ := h
      have t1 := iha h1
      have t2 := ihb h2
      rw [List.length_drop] at t2
      omega
  | group a ih =>
      intro s n h
      rw [matchEnds] at h
      exact ih h
  | plusCls p =>
      intro s n h
      rw [mem_matchEnds_plusCls] at h
      have := length_takeWhileLe p s
      omega

theorem takeWhile_length_mono (p : Char → Bool) (s t : List Char) :
    (s.takeWhile p).length ≤ ((s ++ t).takeWhile p).length := by
  induction s with
  | nil => simp
  | cons c s2 ih =>
      rw [List.cons_append, List.takeWhile_cons, List.takeWhile_cons]
      split
      · simpa using ih
      · simp

theorem matchEnds_append {r : Regex} : ∀ {s t : List Char} {n : Nat},
    n ∈ matchEnds r s → n ∈ matchEnds r (s ++ t) := by
  induction r with
  | cls p =>
      intro s t n h
      match s with
      | [] => simp [matchEnds] at h
      | c :: s2 =>
          rw [matchEnds] at h
          split at h
          next hp =>
            simp at h
            subst h
            simp [List.cons_append, matchEnds, hp]
          next => simp at h
  | seq a b iha ihb =>
      intro s t n h
      simp only [matchEnds, List.mem_flatMap, List.mem_map] at h ⊢
      obtain ⟨n1, h1, m, h2, rfl⟩ := h
      refine ⟨n1, iha h1, m, ?_, rfl⟩
      rw [List.drop_append_of_le_length (matchEnds_pos_le h1).2]
      exact ihb h2
  | group a ih =>
      intro s t n h
      rw [matchEnds] at h ⊢
      exact ih h
  | plusCls p =>
      intro s t n h
      rw [mem_matchEnds_plusCls] at h ⊢
      have := takeWhile_length_mono p s t
      omega

theorem takeWhile_length_take {p : Char → Bool} : ∀ {s : List Char} {n : Nat},
    n ≤ (s.takeWhile p).length → ((s.take n).takeWhile p).length = n := by
  intro s
  induction s with
  | nil =>
      intro n h
      simp at h
      simp [h]
  | cons c s2 ih =>
      intro n h
      cases n with
      | zero => simp
      | succ m =>
          rw [List.takeWhile_cons] at h
          by_cases hp : p c = true
          · rw [if_pos hp] at h
            simp only [List.length_cons] at h
            rw [List.take_succ_cons, List.takeWhile_cons, if_pos hp]
            have hm : m ≤ (List.takeWhile p s2).length := by omega
            simp [ih hm]
          · rw [if_neg hp] at h
            simp at h

theorem matchEnds_take {r : Regex} : ∀ {s : List Char} {n : Nat},
    n ∈ matchEnds r s → n ∈ matchEnds r (s.take n) := by
  induction r with
  | cls p =>
      intro s n h
      match s with
      | [] => simp [matchEnds] at h
      | c :: t =>
          rw [matchEnds] at h
          split at h
          next hp =>
            simp at h
            subst h
            simp [List.take_succ_cons, matchEnds, hp]
          next => simp at h
  | seq a b iha ihb =>
      intro s n h
      simp only [matchEnds, List.mem_flatMap, List.mem_map] at h ⊢
      obtain ⟨n1, h1, m, h2, rfl⟩ := h
      have hn1le : n1 ≤ s.length := (matchEnds_pos_le h1).2
      refine ⟨n1, ?_, m, ?_, rfl⟩
      · have t1 : n1 ∈ matchEnds a (s.take n1 ++ (s.drop n1).take m) :=
          matchEnds_append (iha h1)
        rwa [← List.take_add] at t1
      · rw [List.take_add,
            List.drop_append_of_le_length (by rw [List.length_take]; omega),
            List.drop_eq_nil_of_le (by rw [List.length_take]; omega)]
        simpa using ihb h2
  | group a ih =>
      intro s n h
      rw [matchEnds] at h ⊢
      exact ih h
  | plusCls p =>
      intro s n h
      rw [mem_matchEnds_plusCls] at h ⊢
      obtain ⟨h1, h2⟩ := h
      rw [takeWhile_length_take h2]
      omega

theorem headOptMem {α : Type} {l : List α} {a : α} (h : l.head? = some a) : a ∈ l := by
  cases l with
  | nil => simp at h
  | cons x t =>
      simp at h
      subst h
      exact List.mem_cons_self x t

theorem reSearch_some {r : Regex} : ∀ {s : List Char} {st n : Nat},
    reSearch r s = some (st, n) →
    st ≤ s.length ∧ (matchEnds r (s.drop st)).head? = some n := by
  intro s
  induction s with
  | nil =>
      intro st n h
      rw [reSearch] at h
      cases hh : (matchEnds r []).head? with
      | none => rw [hh] at h; simp at h
      | some m =>
          rw [hh] at h
          simp at h
          obtain ⟨h1, h2⟩ := h
          subst h1
          subst h2
          simpa using hh
  | cons c t ih =>
      intro st n h
      rw [reSearch] at h
      cases hh : (matchEnds r (c :: t)).head? with
      | some m =>
          rw [hh] at h
          simp at h
          obtain ⟨h1, h2⟩ := h
          subst h1
          subst h2
          simpa using hh
      | none =>
          rw [hh] at h
          rw [Option.map_eq_some'] at h
          obtain ⟨q2, h1, h2⟩ := h
          obtain ⟨st2, n2⟩ := q2
          simp at h2
          obtain ⟨h2a, h2b⟩ := h2
          subst h2a
          subst h2b
          have hres := ih h1
          rw [List.drop_succ_cons]
          exact ⟨by simpa using Nat.succ_le_succ hres.1, hres.2⟩

theorem reFindAllAux_spec (r : Regex) : ∀ (fuel : Nat) (s : List Char),
    (∀ q ∈ reFindAllAux r fuel s, q.length ∈ matchEnds r q) ∧
    interleaved s (reFindAllAux r fuel s) := by
  intro fuel
  induction fuel with
  | zero => intro s; simp [reFindAllAux, interleaved]
  | succ f ih =>
      intro s
      rw [reFindAllAux]
      cases hs : reSearch r s with
      | none => simp [interleaved]
      | some q =>
          obtain ⟨st, n⟩ := q
          obtain ⟨hstle, hhead⟩ := reSearch_some hs
          have hmem : n ∈ matchEnds r (s.drop st) := headOptMem hhead
          have hpos := matchEnds_pos_le hmem
          rw [List.length_drop] at hpos
          have hlen : ((s.drop st).take n).length = n := by
            rw [List.length_take, List.length_drop]
            omega
          constructor
          · intro q hq
            rcases List.mem_cons.mp hq with rfl | hq2
            · rw [hlen]
              exact matchEnds_take hmem
            · exact (ih (s.drop (st + n))).1 q hq2
          · refine ⟨s.take st, s.drop (st + n), ?_, (ih (s.drop (st + n))).2⟩
            rw [List.append_assoc]
            have hdd : s.drop (st + n) = (s.drop st).drop n := by
              rw [List.drop_drop]
            rw [hdd, List.take_append_drop, List.take_append_drop]

theorem containsSubL_of_parts (a sub b : List Char) :
    containsSubL (a ++ sub ++ b) sub = true := by
  rw [containsSubL, List.any_eq_true]
  refine ⟨sub ++ b, ?_, ?_⟩
  · rw [List.mem_tails, List.append_assoc]
    exact List.suffix_append a (sub ++ b)
  · rw [List.isPrefixOf_iff_prefix]
    exact List.prefix_append sub b

theorem length_dropWhileLe (p : Char → Bool) (s : List Char) :
    (s.dropWhile p).length ≤ s.length := by
  induction s with
  | nil => simp
  | cons c t ih =>
      rw [List.dropWhile_cons]
      split
      · exact Nat.le_trans ih (by simp)
      · simp

theorem serveRoutes_append_none (rs1 rs2 : List route) (m p : String)
    (h : ∀ r ∈ rs1, routeMatches m p r = false) :
    serveRoutes (rs1 ++ rs2) m p = serveRoutes rs2 m p := by
  induction rs1 with
  | nil => simp
  | cons rt rs0 ih =>
      have hrt := h rt (List.mem_cons_self rt rs0)
      rw [routeMatches, Bool.or_eq_false_iff] at hrt
      rw [List.cons_append, serveRoutes, hrt.1, hrt.2]
      simp only [Bool.false_eq_true, if_false]
      exact ih (fun r hr => h r (List.mem_cons_of_mem rt hr))

theorem serveRoutes_find (rs : List route) (m p : String) :
    (∀ rt : route, List.find? (routeMatches m p) rs = some rt →
       (serveRoutes rs m p = [Event.run rt.controller] ∨
        serveRoutes rs m p = [Event.setParams rt.controller (reFindAllStringS rt.uri p),
                              Event.run rt.controller])) ∧
    (List.find? (routeMatches m p) rs = none →
       serveRoutes rs m p = [Event.respondNotFound goNotFoundOut]) := by
  induction rs with
  | nil => exact ⟨fun rt h => by simp at h, fun _ => rfl⟩
  | cons rt0 rest ih =>
      cases h1 : (p == rt0.uri && methodOKB m rt0.method) with
      | true =>
          have hm : routeMatches m p rt0 = true := by
            rw [routeMatches, h1, Bool.true_or]
          constructor
          · intro rt hf
            rw [List.find?_cons_of_pos _ hm] at hf
            injection hf with hf
            subst hf
            left
            rw [serveRoutes, if_pos h1]
          · intro hf
            rw [List.find?_cons_of_pos _ hm] at hf
            simp at hf
      | false =>
          cases h2 : (rt0.matchable && reMatchStringS rt0.uri p && methodOKB m rt0.method) with
          | true =>
              have hm : routeMatches m p rt0 = true := by
                rw [routeMatches, h2, Bool.or_true]
              constructor
              · intro rt hf
                rw [List.find?_cons_of_pos _ hm] at hf
                injection hf with hf
                subst hf
                right
                rw [serveRoutes, h1, if_neg (by simp), if_pos h2]
              · intro hf
                rw [List.find?_cons_of_pos _ hm] at hf
                simp at hf
          | false =>
              have hm : routeMatches m p rt0 = false := by
                rw [routeMatches, h1, h2]
                rfl
              have hskip : serveRoutes (rt0 :: rest) m p = serveRoutes rest m p := by
                rw [serveRoutes, h1, h2]
                simp only [Bool.false_eq_true, if_false]
              constructor
              · intro rt hf
                rw [List.find?_cons_of_neg _ (by rw [hm]; simp)] at hf
                rw [hskip]
                exact ih.1 rt hf
              · intro hf
                rw [List.find?_cons_of_neg _ (by rw [hm]; simp)] at hf
                rw [hskip]
                exact ih.2 hf

theorem reSearch_cls_none {p : Char → Bool} : ∀ {s : List Char},
    reSearch (.cls p) s = none → ∀ c ∈ s, p c = false := by
  intro s
  induction s with
  | nil => intro _ c hc; simp at hc
  | cons c t ih =>
      intro h d hd
      rw [reSearch] at h
      cases hp : p c with
      | true =>
          rw [matchEnds, if_pos hp] at h
          simp at h
      | false =>
          rw [matchEnds, if_neg (by simp [hp])] at h
          simp only [List.head?_nil, Option.map_eq_none'] at h
          rcases List.mem_cons.mp hd with rfl | hd2
          · exact hp
          · exact ih h d hd2

theorem reSearch_cls_some {p : Char → Bool} : ∀ {s : List Char} {st n : Nat},
    reSearch (.cls p) s = some (st, n) →
    n = 1 ∧ (∀ c ∈ s.take st, p c = false) ∧
      ∃ c t2, s.drop st = c :: t2 ∧ p c = true := by
  intro s
  induction s with
  | nil => intro st n h; simp [reSearch, matchEnds] at h
  | cons c t ih =>
      intro st n h
      rw [reSearch] at h
      cases hp : p c with
      | true =>
          rw [matchEnds, if_pos hp] at h
          simp at h
          obtain ⟨h1, h2⟩ := h
          subst h1
          subst h2
          exact ⟨rfl, by simp, c, t, rfl, hp⟩
      | false =>
          rw [matchEnds, if_neg (by simp [hp])] at h
          simp only [List.head?_nil] at h
          rw [Option.map_eq_some'] at h
          obtain ⟨⟨st2, n2⟩, h1, h2⟩ := h
          simp at h2
          obtain ⟨h2a, h2b⟩ := h2
          subst h2a
          subst h2b
          obtain ⟨hn, hpre, d, t2, hdrop, hpd⟩ := ih h1
          refine ⟨hn, ?_, d, t2, by simpa using hdrop, hpd⟩
          intro x hx
          rw [List.take_succ_cons] at hx
          rcases List.mem_cons.mp hx with rfl | hx2
          · exact hp
          · exact hpre x hx2

theorem reReplaceAllAux_cls (p : Char → Bool) (rep : Char) :
    ∀ (fuel : Nat) (s : List Char), s.length ≤ fuel →
    reReplaceAllAux (.cls p) [rep] fuel s =
      s.map (fun c => if p c then rep else c) := by
  intro fuel
  induction fuel with
  | zero =>
      intro s h
      have hnil : s = [] := List.eq_nil_of_length_eq_zero (by omega)
      subst hnil
      simp [reReplaceAllAux]
  | succ f ih =>
      intro s hle
      rw [reReplaceAllAux]
      cases hs : reSearch (.cls p) s with
      | none =>
          have hall := reSearch_cls_none hs
          have : s.map (fun c => if p c then rep else c) = s.map id := by
            apply List.map_congr_left
            intro c hc
            rw [hall c hc]
            simp
          rw [this, List.map_id]
      | some q =>
          obtain ⟨st, n⟩ := q
          obtain ⟨hn, hpre, c, t2, hdrop, hpc⟩ := reSearch_cls_some hs
          subst hn
          have hstlen : st ≤ s.length := (reSearch_some hs).1
          have ht2 : s.drop (st + 1) = t2 := by
            rw [← List.drop_drop, hdrop]
            rfl
          have hrec : (s.drop (st + 1)).length ≤ f := by
            rw [List.length_drop]
            have hlt : st < s.length := by
              by_contra hcon
              have : s.drop st = [] := List.drop_eq_nil_of_le (by omega)
              rw [this] at hdrop
              exact absurd hdrop (by simp)
            omega
          show List.take st s ++ [rep] ++ reReplaceAllAux (Regex.cls p) [rep] f (List.drop (st + 1) s)
              = List.map (fun c => if p c = true then rep else c) s
          rw [ih _ hrec, ht2]
          conv_rhs => rw [← List.take_append_drop st s]
          rw [List.map_append, hdrop]
          have htake : (s.take st).map (fun c => if p c then rep else c) = s.take st := by
            have : (s.take st).map (fun c => if p c then rep else c) = (s.take st).map id := by
              apply List.map_congr_left
              intro x hx
              rw [hpre x hx]
              simp
            rw [this, List.map_id]
          rw [htake, List.map_cons, if_pos hpc, List.append_assoc]
          rfl

theorem containsSubL_mono_left (a s sub : List Char)
    (h : containsSubL s sub = true) : containsSubL (a ++ s) sub = true := by
  rw [containsSubL, List.any_eq_true] at h ⊢
  obtain ⟨t, ht, hp⟩ := h
  rw [List.mem_tails] at ht
  exact ⟨t, by rw [List.mem_tails]; exact ht.trans (List.suffix_append a s), hp⟩

theorem containsSubL_mono_right (s b sub : List Char)
    (h : containsSubL s sub = true) : containsSubL (s ++ b) sub = true := by
  rw [containsSubL, List.any_eq_true] at h ⊢
  obtain ⟨t, ht, hp⟩ := h
  rw [List.mem_tails] at ht
  refine ⟨t ++ b, ?_, ?_⟩
  · rw [List.mem_tails]
    obtain ⟨u, rfl⟩ := ht
    exact ⟨u, by rw [List.append_assoc]⟩
  · rw [List.isPrefixOf_iff_prefix] at hp ⊢
    exact hp.trans (List.prefix_append t b)

/-- The compiled form of the `slugify` pattern `[\W+]`: a single-character
class holding the non-word characters together with `+`. -/
theorem slugRe_eq : slugRe = Regex.cls (fun c => !(isWordChar c) || c == '+') := rfl

/-- **C7 (counterexample)**: the claim predicts that a maximal run of
non-word characters collapses to a single separator, so `slugify "a!!b"`
would be `"a-b"` (as the spec-worded `slugSpecS` computes); the program's
`slugify` yields `"a--b"` instead — one separator per non-word character. -/
theorem slugify_collapse_counterexample :
    slugify "a!!b" = "a--b" ∧ slugSpecS "a!!b" = "a-b" ∧
    slugify "a!!b" ≠ slugSpecS "a!!b" := by
  refine ⟨by decide, by decide, by decide⟩

/-- **C7 (amended)**: for every title, the slug is the title with **each**
non-word character individually replaced by one separator `-` and word
characters lower-cased (runs are not collapsed: k adjacent non-word
characters yield k separators). -/
theorem slugify_replaces_each_nonword (s : String) :
    (slugify s).data = s.data.map (fun c => if isWordChar c then c.toLower else '-') := by
  rw [slugify, slugRe_eq, strToLower, reReplaceAllString]
  show (reReplaceAllAux (Regex.cls (fun c => !(isWordChar c) || c == '+'))
           ['-'] (s.data.length + 1) s.data).map Char.toLower
      = s.data.map (fun c => if isWordChar c then c.toLower else '-')
  rw [reReplaceAllAux_cls _ '-' _ _ (by omega), List.map_map]
  apply List.map_congr_left
  intro c _
  by_cases hw : isWordChar c = true
  · have hplus : (c == '+') = false := by
      cases hbe : c == '+' with
      | false => rfl
      | true =>
          exfalso
          have hc : c = '+' := by simpa using hbe
          subst hc
          simp [isWordChar] at hw
    simp [Function.comp, hw, hplus]
  · have hw2 : isWordChar c = false := by simpa using hw
    simp [Function.comp, hw2]

/-- **C5**: on every request the router invokes exactly the controller of
the first route (in registration order) that matches — running it directly
when matched, or after a `SetParams` call in the regex case — responds
not-found when no route matches, and for a non-pattern route the match test
is byte-for-byte path equality combined with method compatibility
(`methodOKB`: equal methods, or empty request method against a GET route). -/
theorem mux_dispatch_first_match (mx : mux) (m p : String) :
    (∀ rt : route, List.find? (routeMatches m p) mx.routes = some rt →
       (mux.ServeHTTP mx m p = [Event.run rt.controller] ∨
        mux.ServeHTTP mx m p = [Event.setParams rt.controller (reFindAllStringS rt.uri p),
                                Event.run rt.controller])) ∧
    (List.find? (routeMatches m p) mx.routes = none →
       mux.ServeHTTP mx m p = [Event.respondNotFound goNotFoundOut]) ∧
    (∀ rt : route, rt.matchable = false →
       routeMatches m p rt = (p == rt.uri && methodOKB m rt.method)) := by
  refine ⟨?_, ?_, ?_⟩
  · intro rt hf
    exact (serveRoutes_find mx.routes m p).1 rt hf
  · intro hf
    exact (serveRoutes_find mx.routes m p).2 hf
  · intro rt hmat
    rw [routeMatches, hmat]
    simp

/-- **C5 (witness)**: on the registered route table, `GET /new` is
dispatched to the NewController instance (controller id 1). -/
theorem mux_dispatch_first_match_witness :
    mux.ServeHTTP appMux "GET" "/new" = [Event.run 1] ∨
    mux.ServeHTTP appMux "GET" "/new" =
      [Event.setParams 1 (reFindAllStringS "/new" "/new"), Event.run 1] :=
  (mux_dispatch_first_match appMux "GET" "/new").1
    { method := "GET", uri := "/new", matchable := false, controller := 1 } (by decide)

/-- **C4**: whenever a request reaches a matchable route through the regex
branch (all earlier routes fail, the byte-equality test fails, the pattern
matches the path, and the method is compatible), the router calls
`SetParams` before `Run`, and the parameter sequence passed is exactly the
successive full-pattern matches of the route pattern against the path —
each parameter fully matches the whole pattern (not a capture group), and
the parameters occur in the path from left to right, in order. -/
theorem mux_regex_branch_params (rs1 rs2 : List route) (rt : route) (m p : String)
    (hpre : ∀ r ∈ rs1, routeMatches m p r = false)
    (hlit : (p == rt.uri && methodOKB m rt.method) = false)
    (hre : (rt.matchable && reMatchStringS rt.uri p && methodOKB m rt.method) = true) :
    ∃ re, compilePattern rt.uri = some re ∧
      serveRoutes (rs1 ++ rt :: rs2) m p =
        [Event.setParams rt.controller (reFindAllString re p), Event.run rt.controller] ∧
      reFindAllStringS rt.uri p = reFindAllString re p ∧
      (∀ q ∈ reFindAllString re p, reFullMatch re q) ∧
      interleaved p.data ((reFindAllString re p).map String.data) := by
  have hskip := serveRoutes_append_none rs1 (rt :: rs2) m p hpre
  have hmatch : reMatchStringS rt.uri p = true := by
    rw [Bool.and_assoc, Bool.and_eq_true] at hre
    exact (Bool.and_eq_true _ _ |>.mp hre.2).1
  have hcomp : ∃ re, compilePattern rt.uri = some re := by
    rw [reMatchStringS] at hmatch
    cases hc : compilePattern rt.uri with
    | none => rw [hc] at hmatch; simp at hmatch
    | some re => exact ⟨re, rfl⟩
  obtain ⟨re, hc⟩ := hcomp
  have hfind : reFindAllStringS rt.uri p = reFindAllString re p := by
    rw [reFindAllStringS, hc]
  refine ⟨re, hc, ?_, hfind, ?_, ?_⟩
  · rw [hskip, serveRoutes, hlit]
    rw [if_neg (by simp), if_pos hre, hfind]
  · intro q hq
    rw [reFindAllString, List.mem_map] at hq
    obtain ⟨l, hl, rfl⟩ := hq
    rw [reFullMatch]
    exact (reFindAllAux_spec re _ _).1 l hl
  · rw [reFindAllString, List.map_map]
    have hid : ((reFindAllAux re (p.data.length + 1) p.data).map (String.data ∘ String.mk))
        = reFindAllAux re (p.data.length + 1) p.data := by
      rw [show (String.data ∘ String.mk) = id from funext fun l => rfl]
      exact List.map_id _
    rw [hid]
    exact (reFindAllAux_spec re _ _).2

/-- **C4 (witness)**: on the registered route table, `GET /abc/def` reaches
the ViewController pattern route; the conclusion instantiated there. -/
theorem mux_regex_branch_params_witness :
    ∃ re, compilePattern "\\/([\\w\\-]+)" = some re ∧
      serveRoutes
          ([{ method := "GET", uri := "/", matchable := false, controller := 0 },
            { method := "GET", uri := "/new", matchable := false, controller := 1 },
            { method := "POST", uri := "/new", matchable := false, controller := 1 }] ++
           { method := "GET", uri := "\\/([\\w\\-]+)", matchable := true, controller := 2 } :: [])
          "GET" "/abc/def" =
        [Event.setParams 2 (reFindAllString re "/abc/def"), Event.run 2] ∧
      reFindAllStringS "\\/([\\w\\-]+)" "/abc/def" = reFindAllString re "/abc/def" ∧
      (∀ q ∈ reFindAllString re "/abc/def", reFullMatch re q) ∧
      interleaved "/abc/def".data ((reFindAllString re "/abc/def").map String.data) :=
  mux_regex_branch_params
    [{ method := "GET", uri := "/", matchable := false, controller := 0 },
     { method := "GET", uri := "/new", matchable := false, controller := 1 },
     { method := "POST", uri := "/new", matchable := false, controller := 1 }]
    []
    { method := "GET", uri := "\\/([\\w\\-]+)", matchable := true, controller := 2 }
    "GET" "/abc/def" (by decide) (by decide) (by decide)

/-- **C9**: a request whose path is byte-for-byte equal to a matchable
route's pattern string (with a compatible method, and no earlier route
matching) is dispatched through the literal-equality branch: the controller
is `Run` without any `SetParams` call, so the per-controller stored
parameter state is left exactly as an earlier dispatch set it. -/
theorem mux_literal_eq_shadows_pattern (rs1 rs2 : List route) (rt : route) (m p : String)
    (hpre : ∀ r ∈ rs1, routeMatches m p r = false)
    (_hmat : rt.matchable = true)
    (heq : p = rt.uri)
    (hm : methodOKB m rt.method = true) :
    serveRoutes (rs1 ++ rt :: rs2) m p = [Event.run rt.controller] ∧
    (∀ st : Nat → List String, applyEvents (serveRoutes (rs1 ++ rt :: rs2) m p) st = st) := by
  have hskip := serveRoutes_append_none rs1 (rt :: rs2) m p hpre
  have hcond : (p == rt.uri && methodOKB m rt.method) = true := by
    rw [heq, hm]
    simp
  have hserve : serveRoutes (rs1 ++ rt :: rs2) m p = [Event.run rt.controller] := by
    rw [hskip, serveRoutes, if_pos hcond]
  exact ⟨hserve, fun st => by rw [hserve]; rfl⟩

/-- **C9 (witness)**: a request for the literal path equal to the
ViewController route's pattern text, `GET \/([\w\-]+)`, runs controller 2
with no `SetParams` event, leaving any stored params unchanged. -/
theorem mux_literal_eq_shadows_pattern_witness :
    serveRoutes
        ([{ method := "GET", uri := "/", matchable := false, controller := 0 },
          { method := "GET", uri := "/new", matchable := false, controller := 1 },
          { method := "POST", uri := "/new", matchable := false, controller := 1 }] ++
         { method := "GET", uri := "\\/([\\w\\-]+)", matchable := true, controller := 2 } :: [])
        "GET" "\\/([\\w\\-]+)" = [Event.run 2] ∧
    (∀ st : Nat → List String,
       applyEvents
         (serveRoutes
           ([{ method := "GET", uri := "/", matchable := false, controller := 0 },
             { method := "GET", uri := "/new", matchable := false, controller := 1 },
             { method := "POST", uri := "/new", matchable := false, controller := 1 }] ++
            { method := "GET", uri := "\\/([\\w\\-]+)", matchable := true, controller := 2 } :: [])
           "GET" "\\/([\\w\\-]+)") st = st) :=
  mux_literal_eq_shadows_pattern _ _ _ "GET" "\\/([\\w\\-]+)"
    (by decide) rfl rfl (by decide)

/-- **C6 (counterexample)**: for a request matching no route, the router's
body comes from Go's `http.NotFound` and is `"404 page not found\n"` — it
does **not** contain the literal text `"Page Not Found"` (the case differs),
though the status is 404. -/
theorem mux_notfound_body_counterexample :
    mux.ServeHTTP appMux "PUT" "/x" = [Event.respondNotFound goNotFoundOut] ∧
    goNotFoundOut.status = 404 ∧
    containsSub goNotFoundOut.body "Page Not Found" = false := by
  refine ⟨by decide, rfl, by decide⟩

/-- **C6 (amended)**: for every request for which no registered route
matches, the router responds with HTTP status 404 and the body
`"404 page not found\n"` written by Go's `http.NotFound` — which contains
the literal text `"404 page not found"` (lower case), not `"Page Not Found"`. -/
theorem mux_no_match_404 (mx : mux) (m p : String)
    (h : ∀ rt ∈ mx.routes, routeMatches m p rt = false) :
    mux.ServeHTTP mx m p = [Event.respondNotFound goNotFoundOut] ∧
    goNotFoundOut.status = 404 ∧
    containsSub goNotFoundOut.body "404 page not found" = true := by
  refine ⟨?_, rfl, by decide⟩
  obtain ⟨rs⟩ := mx
  rw [mux.ServeHTTP]
  have hskip := serveRoutes_append_none rs [] m p h
  rw [List.append_nil] at hskip
  rw [hskip]
  rfl

/-- **C6 (witness)**: `PUT /nope` matches no registered route and yields the
404 response with the lower-case not-found body. -/
theorem mux_no_match_404_witness :
    mux.ServeHTTP appMux "PUT" "/nope" = [Event.respondNotFound goNotFoundOut] ∧
    goNotFoundOut.status = 404 ∧
    containsSub goNotFoundOut.body "404 page not found" = true :=
  mux_no_match_404 appMux "PUT" "/nope" (by decide)

/-- **C10**: on `POST /new` the error returned by the insert `Exec` is
ignored — the outcome depends only on the returned result value, never on
the error — and `LastInsertId` is dereferenced unconditionally, so when the
insert fails (nil result) the handler hits a nil dereference rather than any
error-handling branch; when a result is returned it redirects 302 to `/`
regardless of the error value. -/
theorem new_post_insert_failure_unguarded (t d c : String)
    (exec : List String → ExecOutcome)
    (hfail : (exec [slugify t, t, d, c]).result = none) :
    NewController.Run "POST" t d c exec = NewOutcome.panicNilDeref ∧
    (∀ (exec2 : List String → ExecOutcome) (r : Nat),
       (exec2 [slugify t, t, d, c]).result = some r →
       NewController.Run "POST" t d c exec2 = NewOutcome.redirect "/" 302) ∧
    (∀ e1 e2 : List String → ExecOutcome,
       (e1 [slugify t, t, d, c]).result = (e2 [slugify t, t, d, c]).result →
       NewController.Run "POST" t d c e1 = NewController.Run "POST" t d c e2) := by
  refine ⟨?_, ?_, ?_⟩
  · rw [NewController.Run, if_neg (by decide)]
    simp only []
    rw [hfail]
  · intro exec2 r h2
    rw [NewController.Run, if_neg (by decide)]
    simp only []
    rw [h2]
  · intro e1 e2 hsame
    rw [NewController.Run, NewController.Run, if_neg (by decide), if_neg (by decide)]
    simp only []
    rw [hsame]

/-- **C10 (witness)**: a store whose `Exec` fails (nil result plus an error)
drives the POST handler into the nil dereference. -/
theorem new_post_insert_failure_unguarded_witness :
    NewController.Run "POST" "Title" "2018-02-01" "Content"
        (fun _ => { result := none, errMsg := some "Simulating error" })
      = NewOutcome.panicNilDeref ∧
    (∀ (exec2 : List String → ExecOutcome) (r : Nat),
       (exec2 [slugify "Title", "Title", "2018-02-01", "Content"]).result = some r →
       NewController.Run "POST" "Title" "2018-02-01" "Content" exec2
         = NewOutcome.redirect "/" 302) ∧
    (∀ e1 e2 : List String → ExecOutcome,
       (e1 [slugify "Title", "Title", "2018-02-01", "Content"]).result
           = (e2 [slugify "Title", "Title", "2018-02-01", "Content"]).result →
       NewController.Run "POST" "Title" "2018-02-01" "Content" e1
         = NewController.Run "POST" "Title" "2018-02-01" "Content" e2) :=
  new_post_insert_failure_unguarded "Title" "2018-02-01" "Content"
    (fun _ => { result := none, errMsg := some "Simulating error" }) rfl

/-- **C1**: a POST to the Edit endpoint for an existing slug with `title`,
`date` and `content` all empty responds 302 with `Location` equal to the
entry's edit path carrying `error=1` and performs no store update; moreover
the store is skipped **only** in that all-empty case (the validation is the
conjunction of the three emptiness tests, not a per-field requirement). -/
theorem edit_post_all_empty_redirects (e : Journal) (ep pe : Bool) (t d c : String)
    (h : t = "" ∧ d = "" ∧ c = "") :
    (editRun (some e) "POST" ep t d c pe).resp.status = 302 ∧
    (editRun (some e) "POST" ep t d c pe).resp.location
        = some ("/" ++ e.slug ++ "/edit?error=1") ∧
    (editRun (some e) "POST" ep t d c pe).update = none ∧
    (∀ t2 d2 c2 : String,
       (editRun (some e) "POST" ep t2 d2 c2 pe).update = none →
       t2 = "" ∧ d2 = "" ∧ c2 = "") := by
  obtain ⟨rfl, rfl, rfl⟩ := h
  refine ⟨rfl, rfl, rfl, ?_⟩
  intro t2 d2 c2 hu
  by_cases h2 : (t2 == "" && (d2 == "" && c2 == "")) = true
  · simp only [Bool.and_eq_true, beq_iff_eq] at h2
    exact ⟨h2.1, h2.2.1, h2.2.2⟩
  · exfalso
    have h2f : (t2 == "" && d2 == "" && c2 == "") = false := by
      rw [Bool.and_assoc]
      simpa using h2
    rw [editRun] at hu
    rw [if_pos (by decide)] at hu
    rw [if_neg (by rw [h2f]; simp)] at hu
    simp at hu

/-- **C1 (witness)**: the empty submission for the test row redirects to
`/slug/edit?error=1` without touching the store. -/
theorem edit_post_all_empty_redirects_witness :
    (editRun (some { id := 1, slug := "slug", title := "Title", date := "2018-02-01",
                     content := "Content" }) "POST" false "" "" "" false).resp.status = 302 ∧
    (editRun (some { id := 1, slug := "slug", title := "Title", date := "2018-02-01",
                     content := "Content" }) "POST" false "" "" "" false).resp.location
        = some "/slug/edit?error=1" ∧
    (editRun (some { id := 1, slug := "slug", title := "Title", date := "2018-02-01",
                     content := "Content" }) "POST" false "" "" "" false).update = none ∧
    (∀ t2 d2 c2 : String,
       (editRun (some { id := 1, slug := "slug", title := "Title", date := "2018-02-01",
                        content := "Content" }) "POST" false t2 d2 c2 false).update = none →
       t2 = "" ∧ d2 = "" ∧ c2 = "") :=
  edit_post_all_empty_redirects
    { id := 1, slug := "slug", title := "Title", date := "2018-02-01", content := "Content" }
    false false "" "" "" ⟨rfl, rfl, rfl⟩

/-- **C2**: a POST to the Edit endpoint for an existing slug whose
submission is valid (not all three fields empty) updates the stored entry —
same id, same slug, new `title`, `date`, `content` — and responds 302 with
`Location` equal to `/?saved=1`. -/
theorem edit_post_valid_saves (e : Journal) (ep pe : Bool) (t d c : String)
    (h : ¬(t = "" ∧ d = "" ∧ c = "")) :
    (editRun (some e) "POST" ep t d c pe).resp.status = 302 ∧
    (editRun (some e) "POST" ep t d c pe).resp.location = some "/?saved=1" ∧
    (editRun (some e) "POST" ep t d c pe).update
        = some { id := e.id, slug := e.slug, title := t, date := d, content := c } := by
  have hcond : (t == "" && d == "" && c == "") = false := by
    cases hb : (t == "" && d == "" && c == "") with
    | false => rfl
    | true =>
        exfalso
        rw [Bool.and_assoc, Bool.and_eq_true, Bool.and_eq_true] at hb
        exact h ⟨by simpa using hb.1, by simpa using hb.2.1, by simpa using hb.2.2⟩
  rw [editRun, if_pos (by decide), if_neg (by rw [hcond]; simp)]
  exact ⟨rfl, rfl, rfl⟩

/-- **C2 (witness)**: the test submission `Title/2018-02-01/Test again` for
the existing row `slug` is saved with id and slug unchanged and redirects to
`/?saved=1`. -/
theorem edit_post_valid_saves_witness :
    (editRun (some { id := 1, slug := "slug", title := "Title", date := "2018-02-01",
                     content := "Content" }) "POST" false "Title" "2018-02-01" "Test again"
        false).resp.status = 302 ∧
    (editRun (some { id := 1, slug := "slug", title := "Title", date := "2018-02-01",
                     content := "Content" }) "POST" false "Title" "2018-02-01" "Test again"
        false).resp.location = some "/?saved=1" ∧
    (editRun (some { id := 1, slug := "slug", title := "Title", date := "2018-02-01",
                     content := "Content" }) "POST" false "Title" "2018-02-01" "Test again"
        false).update
      = some { id := 1, slug := "slug", title := "Title", date := "2018-02-01",
               content := "Test again" } :=
  edit_post_valid_saves
    { id := 1, slug := "slug", title := "Title", date := "2018-02-01", content := "Content" }
    false false "Title" "2018-02-01" "Test again" (by intro h; exact absurd h.1 (by decide))

/-- **C3**: when the store query for the slug yields no row, the Edit
controller — for any HTTP method, GET or POST alike — writes status 404 with
a body containing "Page Not Found", performs no update and issues no
redirect. -/
theorem edit_not_found_404 (method : String) (ep pe : Bool) (t d c : String) :
    (editRun none method ep t d c pe).resp.status = 404 ∧
    containsSub (editRun none method ep t d c pe).resp.body "Page Not Found" = true ∧
    (editRun none method ep t d c pe).update = none ∧
    (editRun none method ep t d c pe).resp.location = none := by
  refine ⟨rfl, ?_, rfl, rfl⟩
  show containsSub "Page Not Found" "Page Not Found" = true
  decide

theorem containsSub_appendLeft (a s sub : String) (h : containsSub s sub = true) :
    containsSub (a ++ s) sub = true := by
  rw [containsSub, String.data_append]
  exact containsSubL_mono_left a.data s.data sub.data h

theorem containsSub_appendRight (s b sub : String) (h : containsSub s sub = true) :
    containsSub (s ++ b) sub = true := by
  rw [containsSub, String.data_append]
  exact containsSubL_mono_right s.data b.data sub.data h

theorem renderFields_contains (e : Journal) :
    containsSub (renderFields e) e.title = true ∧
    containsSub (renderFields e) e.date = true ∧
    containsSub (renderFields e) e.content = true := by
  have hd : (renderFields e).data
      = "<form>".data ++ (e.title.data ++ ("|".data ++ (e.date.data ++ ("|".data
          ++ (e.content.data ++ "</form>".data))))) := by
    simp [renderFields, String.data_append, List.append_assoc]
  refine ⟨?_, ?_, ?_⟩ <;> rw [containsSub, hd]
  · exact containsSubL_mono_left _ _ _ (containsSubL_of_parts [] e.title.data _)
  · exact containsSubL_mono_left _ _ _ (containsSubL_mono_left _ _ _
      (containsSubL_mono_left _ _ _ (containsSubL_of_parts [] e.date.data _)))
  · exact containsSubL_mono_left _ _ _ (containsSubL_mono_left _ _ _
      (containsSubL_mono_left _ _ _ (containsSubL_mono_left _ _ _
        (containsSubL_mono_left _ _ _ (containsSubL_of_parts [] e.content.data _)))))

/-- **C8**: on a GET to the Edit endpoint for an existing row, the rendered
body contains the error-banner marker `div class="error"` exactly when the
`error` query parameter is truthy (and the controller's `Error` flag is set
from it); with the flag false the marker is absent; in both cases the form
is pre-populated with the loaded entry's `title`, `date` and `content`, the
status is 200, and the store is not written.  The hypothesis states that the
entry's own field text does not spuriously contain the marker (as the HTML
escaping of the real template guarantees). -/
theorem edit_get_banner_iff (e : Journal) (ep pe : Bool) (t d c : String)
    (hclean : containsSub (renderFields e) errMarker = false) :
    (editRun (some e) "GET" ep t d c pe).resp.status = 200 ∧
    containsSub (editRun (some e) "GET" ep t d c pe).resp.body errMarker = ep ∧
    (editRun (some e) "GET" ep t d c pe).errorFlag = ep ∧
    containsSub (editRun (some e) "GET" ep t d c pe).resp.body e.title = true ∧
    containsSub (editRun (some e) "GET" ep t d c pe).resp.body e.date = true ∧
    containsSub (editRun (some e) "GET" ep t d c pe).resp.body e.content = true ∧
    (editRun (some e) "GET" ep t d c pe).update = none := by
  cases ep with
  | false =>
      refine ⟨rfl, ?_, rfl, ?_, ?_, ?_, rfl⟩
      · exact hclean
      · exact (renderFields_contains e).1
      · exact (renderFields_contains e).2.1
      · exact (renderFields_contains e).2.2
  | true =>
      have hbanner : containsSub ("<" ++ errMarker ++ ">") errMarker = true := by
        rw [containsSub, String.data_append, String.data_append]
        exact containsSubL_of_parts _ _ _
      refine ⟨rfl, ?_, rfl, ?_, ?_, ?_, rfl⟩
      · exact containsSub_appendRight _ _ _ hbanner
      · exact containsSub_appendLeft _ _ _ (renderFields_contains e).1
      · exact containsSub_appendLeft _ _ _ (renderFields_contains e).2.1
      · exact containsSub_appendLeft _ _ _ (renderFields_contains e).2.2

/-- **C8 (witness)**: for the test row and `error=1`, the rendered body
carries the banner marker and the row's field values. -/
theorem edit_get_banner_iff_witness :
    (editRun (some testRow) "GET" true "" "" "" false).resp.status = 200 ∧
    containsSub (editRun (some testRow) "GET" true "" "" "" false).resp.body errMarker = true ∧
    (editRun (some testRow) "GET" true "" "" "" false).errorFlag = true ∧
    containsSub (editRun (some testRow) "GET" true "" "" "" false).resp.body "Title" = true ∧
    containsSub (editRun (some testRow) "GET" true "" "" ""
        false).resp.body "2018-02-01" = true ∧
    containsSub (editRun (some testRow) "GET" true "" "" "" false).resp.body "Content" = true ∧
    (editRun (some testRow) "GET" true "" "" "" false).update = none :=
  edit_get_banner_iff testRow true false "" "" "" (by decide)
